import Mathlib

/-!
Verification of `scripts/compare_benchmarks.py`, a benchmark regression
detector.  The script is embedded shallowly:

* Python `float` time values are modelled as rationals (`ℚ`); all the
  arithmetic the script performs on them (subtraction, division,
  comparisons against the threshold) is exact on the inputs of interest.
* Python `dict` values are modelled as association lists
  (`List (String × α)`) with dict semantics: `dictFind` looks a key up,
  `dictKeys` is the (duplicate-free) key list, `dictInsert` is
  `d[k] = v` (overwrite in place if the key exists, append otherwise).
* A raised, uncaught Python exception is modelled as `Except.error ()`.
* `print` warnings are modelled by separate pure functions
  (`extract_warnings`, `compare_warns`) computing exactly the warnings
  the corresponding code path emits.
* Python `sorted` on strings is ascending code-point lexicographic
  order; it is modelled with `List.insertionSort strLe`, where `strLe`
  is that order (proved equivalent to the `≤` of the `String` linear
  order).  The algorithm is immaterial: any sort of distinct keys by a
  total order produces the same list.
-/

instance {ε α : Type} [DecidableEq ε] [DecidableEq α] : DecidableEq (Except ε α)
  | .error a, .error b => decidable_of_iff (a = b) (by simp)
  | .error _, .ok _ => isFalse (by simp)
  | .ok _, .error _ => isFalse (by simp)
  | .ok a, .ok b => decidable_of_iff (a = b) (by simp)

/-- Generic dict lookup: value of the (first) entry with the given key. -/
def dictFind (m : List (String × α)) (k : String) : Option α :=
  (m.find? (fun p => p.1 == k)).map Prod.snd

/-- Key set of a dict, as a duplicate-free list. -/
def dictKeys (m : List (String × α)) : List String :=
  (m.map Prod.fst).dedup

/-- `m[k] = v` on a Python dict: overwrite in place when the key exists,
append a new entry otherwise. -/
def dictInsert (m : List (String × α)) (k : String) (v : α) :
    List (String × α) :=
  if (m.map Prod.fst).contains k then
    m.map (fun p => if p.1 == k then (k, v) else p)
  else
    m ++ [(k, v)]

/-- A benchmark name → time mapping (`Dict[str, float]` in the script). -/
abbrev MetricMap := List (String × ℚ)

/-! ### `load_benchmark_results` — document shape normalization -/

/-- Parsed JSON documents (`json.load` output). -/
inductive Json where
  | obj (fields : List (String × Json))
  | arr (elems : List Json)
  | str (s : String)
  | num (q : ℚ)
  | bool (b : Bool)
  | null

/-- Does `needle` match at the head of `hay`? -/
def charsMatchAt : List Char → List Char → Bool
  | [], _ => true
  | _ :: _, [] => false
  | a :: as, b :: bs => a == b && charsMatchAt as bs

/-- Does `needle` occur as a contiguous substring of `hay`? -/
def charsContain (needle : List Char) : List Char → Bool
  | [] => charsMatchAt needle []
  | c :: rest => charsMatchAt needle (c :: rest) || charsContain needle rest

/-- Python's `key in data`: key test on a dict, membership on a list,
substring test on a string, `TypeError` otherwise. -/
def pyContains (data : Json) (key : String) : Except Unit Bool :=
  match data with
  | .obj fs => .ok ((fs.map Prod.fst).contains key)
  | .arr es => .ok (es.any (fun e =>
      match e with
      | .str s => s == key
      | _ => false))
  | .str s => .ok (charsContain key.data s.data)
  | _ => .error ()

/-- Shape normalization performed by `load_benchmark_results` after
`json.load` succeeded: `data['benchmarks']` when that key is present,
`data` itself when it is a list, `[data]` otherwise.  `Except.error ()`
models an uncaught `TypeError`. -/
def load_normalize (data : Json) : Except Unit Json :=
  match pyContains data "benchmarks" with
  | .error e => .error e
  | .ok true =>
      match data with
      | .obj fs =>
          match dictFind fs "benchmarks" with
          | some v => .ok v
          | none => .ok Json.null  -- unreachable: the key test succeeded
      | _ => .error ()  -- `data['benchmarks']` on a non-dict: TypeError
  | .ok false =>
      match data with
      | .arr es => .ok (Json.arr es)
      | _ => .ok (Json.arr [data])

/-! ### `extract_benchmark_data` -/

/-- A per-benchmark record, per the documented record shape: an optional
`"name"` field (a string) and the remaining fields with numeric values. -/
structure Record where
  nameField : Option String
  fields : List (String × ℚ)
deriving DecidableEq

/-- The fixed, ordered candidate list of timing field names. -/
def timeKeys : List String :=
  ["real_time", "cpu_time", "wall_time", "time", "duration"]

/-- `bench.get('name', 'unknown')`. -/
def Record.getName (r : Record) : String :=
  r.nameField.getD "unknown"

/-- The loop over `timeKeys` in `extract_benchmark_data`: value of the
first candidate field present in the record, if any. -/
def findTimeValue (r : Record) : Option ℚ :=
  timeKeys.findSome? (fun k => dictFind r.fields k)

/-- One iteration of the `for bench in benchmarks` loop of
`extract_benchmark_data`: `results[name] = float(time_value)` when a
timing field was found, skip (with a warning) otherwise. -/
def extractStep (acc : MetricMap) (r : Record) : MetricMap :=
  match findTimeValue r with
  | some v => dictInsert acc r.getName v
  | none => acc

/-- `extract_benchmark_data`: build the name → metric dict, writing each
record that has a timing field (later records overwrite earlier ones at
the same name) and skipping records that have none. -/
def extract_benchmark_data (benchmarks : List Record) : MetricMap :=
  benchmarks.foldl extractStep []

/-- The warnings printed by `extract_benchmark_data`: one per record with
no recognized timing field. -/
def extract_warnings (benchmarks : List Record) : List String :=
  (benchmarks.filter (fun r => (findTimeValue r).isNone)).map Record.getName

/-! ### `compare_benchmarks` -/

inductive Status where
  | REGRESSION
  | IMPROVEMENT
  | NEUTRAL
deriving DecidableEq

/-- One entry of the `results` list built by `compare_benchmarks`. -/
structure BenchResult where
  name : String
  baseline_time : ℚ
  current_time : ℚ
  absolute_change : ℚ
  relative_change : ℚ
  status : Status
deriving DecidableEq

/-- The status if-chain of `compare_benchmarks`. -/
def classify (relative_change threshold : ℚ) : Status :=
  if relative_change > threshold then Status.REGRESSION
  else if relative_change < -threshold then Status.IMPROVEMENT
  else Status.NEUTRAL

/-- `set(baseline.keys()) & set(current.keys())`, as a list. -/
def commonKeys (baseline current : MetricMap) : List String :=
  (dictKeys baseline).filter (fun k => (dictKeys current).contains k)

/-- Code-point lexicographic "less or equal" on character lists: exactly
Python's `<=` on strings. -/
def charsLe : List Char → List Char → Bool
  | [], _ => true
  | _ :: _, [] => false
  | a :: as, b :: bs =>
      if a.toNat < b.toNat then true
      else if b.toNat < a.toNat then false
      else charsLe as bs

/-- Python's `<=` on strings (code-point lexicographic); proved below to
agree with the `≤` of the `String` linear order. -/
def strLe (a b : String) : Prop := charsLe a.data b.data = true

instance : DecidableRel strLe := fun a b =>
  inferInstanceAs (Decidable (charsLe a.data b.data = true))

/-- `sorted(common_benchmarks)`: the common names in ascending order. -/
def sortedCommon (baseline current : MetricMap) : List String :=
  (commonKeys baseline current).insertionSort strLe

/-- The `for name in sorted(common_benchmarks)` loop.  Each name is
looked up in both maps (the lookups always succeed on common names; the
`getD 0` default is never reached there), the relative change is
computed — `Except.error ()` models the uncaught `ZeroDivisionError`
when the baseline time is `0` — and the result row is appended.
`has_regression` is the disjunction of the per-row regression tests. -/
def compareLoop (baseline current : MetricMap) (threshold : ℚ) :
    List String → Except Unit (Bool × List BenchResult)
  | [] => .ok (false, [])
  | n :: rest =>
      let baseline_time := (dictFind baseline n).getD 0
      let current_time := (dictFind current n).getD 0
      if baseline_time = 0 then .error ()
      else
        let relative_change := (current_time - baseline_time) / baseline_time
        let status := classify relative_change threshold
        (compareLoop baseline current threshold rest).map
          (fun p =>
            ((if status = Status.REGRESSION then true else p.1),
              { name := n
                baseline_time := baseline_time
                current_time := current_time
                absolute_change := current_time - baseline_time
                relative_change := relative_change
                status := status } :: p.2))

/-- `compare_benchmarks(baseline, current, threshold)`: returns
`(False, [])` when the two key sets do not intersect, otherwise runs the
comparison loop over the sorted common names. -/
def compare_benchmarks (baseline current : MetricMap) (threshold : ℚ) :
    Except Unit (Bool × List BenchResult) :=
  if commonKeys baseline current = [] then .ok (false, [])
  else compareLoop baseline current threshold (sortedCommon baseline current)

/-- The "no common benchmarks" warning of `compare_benchmarks` is printed
exactly when the key-set intersection is empty. -/
def compare_warns (baseline current : MetricMap) : Bool :=
  (commonKeys baseline current).isEmpty

/-! ### `main` — final verdict -/

/-- The exit code of the final-verdict block of `main`: `sys.exit(1)` is
reached exactly when `has_regression` holds and `--fail-on-regression`
was passed; every other path falls through to a normal exit `0`. -/
def main_exit (has_regression strict : Bool) : Nat :=
  if has_regression then (if strict then 1 else 0) else 0

/-! ### Dictionary lemmas -/

theorem dictFind_nil {α : Type} (k : String) :
    dictFind ([] : List (String × α)) k = none := rfl

theorem dictFind_cons {α : Type} (k' : String) (v : α) (m : List (String × α)) (k : String) :
    dictFind ((k', v) :: m) k = if k' = k then some v else dictFind m k := by
  simp only [dictFind, List.find?]
  by_cases h : k' = k
  · simp [h]
  · simp [h, beq_eq_false_iff_ne.mpr h]

theorem mem_dictKeys {α : Type} (m : List (String × α)) (k : String) :
    k ∈ dictKeys m ↔ k ∈ m.map Prod.fst :=
  List.mem_dedup

theorem dictFind_eq_none_iff {α : Type} (m : List (String × α)) (k : String) :
    dictFind m k = none ↔ k ∉ m.map Prod.fst := by
  induction m with
  | nil => simp [dictFind_nil]
  | cons p m ih =>
      obtain ⟨k', v⟩ := p
      rw [dictFind_cons]
      by_cases h : k' = k
      · simp [h]
      · simp [h, ih, Ne.symm h]

theorem dictFind_mem {α : Type} {m : List (String × α)} {k : String} {v : α}
    (h : dictFind m k = some v) : (k, v) ∈ m := by
  induction m with
  | nil => simp [dictFind_nil] at h
  | cons p m ih =>
      obtain ⟨k', w⟩ := p
      rw [dictFind_cons] at h
      by_cases hk : k' = k
      · rw [if_pos hk] at h
        obtain rfl : w = v := by simpa using h
        subst hk
        exact List.mem_cons_self _ _
      · rw [if_neg hk] at h
        exact List.mem_cons_of_mem _ (ih h)

theorem exists_dictFind_of_mem_keys {α : Type} {m : List (String × α)} {k : String}
    (h : k ∈ dictKeys m) : ∃ v, dictFind m k = some v := by
  cases hf : dictFind m k with
  | some v => exact ⟨v, rfl⟩
  | none =>
      rw [dictFind_eq_none_iff] at hf
      exact absurd ((mem_dictKeys m k).mp h) hf

/-! ### The string order used by `sorted` -/

theorem char_lt_iff (a b : Char) : a < b ↔ a.toNat < b.toNat := Iff.rfl

theorem char_eq_of_toNat_eq {a b : Char} (h : a.toNat = b.toNat) : a = b :=
  Char.eq_of_val_eq (UInt32.toNat.inj h)

theorem charsLe_iff_not_lt : ∀ xs ys : List Char, charsLe xs ys = true ↔ ¬ ys < xs
  | [], [] => by
      constructor
      · intro _ h; cases h
      · intro _; rfl
  | [], b :: bs => by
      constructor
      · intro _ h; cases h
      · intro _; rfl
  | a :: as, [] => by
      constructor
      · intro h; simp [charsLe] at h
      · intro h; exact absurd List.Lex.nil h
  | a :: as, b :: bs => by
      rcases Nat.lt_trichotomy a.toNat b.toNat with hab | hab | hab
      · rw [show charsLe (a :: as) (b :: bs) = true by
            simp [charsLe, if_pos hab]]
        simp only [true_iff]
        intro h
        cases h with
        | rel hba => exact absurd ((char_lt_iff b a).mp hba) (Nat.lt_asymm hab)
        | cons h' => exact absurd hab (Nat.lt_irrefl _)
      · have hEq : a = b := char_eq_of_toNat_eq hab
        subst hEq
        rw [show charsLe (a :: as) (a :: bs) = charsLe as bs by
            simp [charsLe, Nat.lt_irrefl]]
        rw [charsLe_iff_not_lt as bs]
        constructor
        · intro h hlt
          cases hlt with
          | rel hba => exact absurd hba (lt_irrefl a)
          | cons h' => exact absurd h' h
        · intro h hlt
          exact h (List.Lex.cons hlt)
      · rw [show charsLe (a :: as) (b :: bs) = false by
            simp [charsLe, if_neg (Nat.lt_asymm hab), if_pos hab]]
        constructor
        · intro h; cases h
        · intro h
          exact absurd (List.Lex.rel ((char_lt_iff b a).mpr hab)) h

theorem strLe_iff (a b : String) : strLe a b ↔ a ≤ b := by
  rw [strLe, charsLe_iff_not_lt]
  constructor
  · intro h
    refine not_lt.mp (fun hba => h ?_)
    exact String.lt_iff_toList_lt.mp hba
  · intro h hba
    exact absurd (String.lt_iff_toList_lt.mpr hba) (not_lt.mpr h)

instance : IsTotal String strLe :=
  ⟨fun a b => by
    rcases le_total a b with h | h
    · exact Or.inl ((strLe_iff a b).mpr h)
    · exact Or.inr ((strLe_iff b a).mpr h)⟩

instance : IsTrans String strLe :=
  ⟨fun a b c hab hbc =>
    (strLe_iff a c).mpr (le_trans ((strLe_iff a b).mp hab) ((strLe_iff b c).mp hbc))⟩

instance : IsAntisymm String strLe :=
  ⟨fun a b hab hba => le_antisymm ((strLe_iff a b).mp hab) ((strLe_iff b a).mp hba)⟩

/-! ### Common-key lemmas -/

theorem mem_commonKeys (baseline current : MetricMap) (k : String) :
    k ∈ commonKeys baseline current ↔ k ∈ dictKeys baseline ∧ k ∈ dictKeys current := by
  simp [commonKeys, List.mem_filter, List.elem_iff]

theorem mem_sortedCommon (baseline current : MetricMap) (k : String) :
    k ∈ sortedCommon baseline current ↔ k ∈ commonKeys baseline current :=
  List.mem_insertionSort strLe

theorem sortedCommon_sorted (baseline current : MetricMap) :
    List.Sorted strLe (sortedCommon baseline current) :=
  List.sorted_insertionSort strLe (commonKeys baseline current)

/-! ### Comparison-loop lemmas -/

theorem exceptMap_error {ε α β : Type} (f : α → β) (e : ε) :
    Except.map f (Except.error e) = Except.error e := rfl

theorem exceptMap_ok {ε α β : Type} (f : α → β) (x : α) :
    Except.map f (Except.ok x) = (Except.ok (f x) : Except ε β) := rfl

theorem compareLoop_nil (b c : MetricMap) (t : ℚ) :
    compareLoop b c t [] = .ok (false, []) := rfl

theorem compareLoop_cons (b c : MetricMap) (t : ℚ) (n : String) (rest : List String) :
    compareLoop b c t (n :: rest) =
      (if (dictFind b n).getD 0 = 0 then .error ()
       else
         (compareLoop b c t rest).map (fun p =>
           ((if classify (((dictFind c n).getD 0 - (dictFind b n).getD 0) /
                 (dictFind b n).getD 0) t = Status.REGRESSION then true else p.1),
             { name := n
               baseline_time := (dictFind b n).getD 0
               current_time := (dictFind c n).getD 0
               absolute_change := (dictFind c n).getD 0 - (dictFind b n).getD 0
               relative_change := ((dictFind c n).getD 0 - (dictFind b n).getD 0) /
                 (dictFind b n).getD 0
               status := classify (((dictFind c n).getD 0 - (dictFind b n).getD 0) /
                 (dictFind b n).getD 0) t } :: p.2))) := rfl

theorem compareLoop_names {b c : MetricMap} {t : ℚ} :
    ∀ {ns : List String} {hr : Bool} {rs : List BenchResult},
      compareLoop b c t ns = .ok (hr, rs) → rs.map BenchResult.name = ns := by
  intro ns
  induction ns with
  | nil =>
      intro hr rs h
      rw [compareLoop_nil] at h
      simp only [Except.ok.injEq, Prod.mk.injEq] at h
      obtain ⟨h1, h2⟩ := h
      subst h2
      rfl
  | cons n rest ih =>
      intro hr rs h
      rw [compareLoop_cons] at h
      by_cases h0 : (dictFind b n).getD 0 = 0
      · rw [if_pos h0] at h; simp at h
      · rw [if_neg h0] at h
        cases hrec : compareLoop b c t rest with
        | error e => rw [hrec, exceptMap_error] at h; simp at h
        | ok p =>
            obtain ⟨p1, p2⟩ := p
            rw [hrec, exceptMap_ok] at h
            simp only [Except.ok.injEq, Prod.mk.injEq] at h
            obtain ⟨h1, h2⟩ := h
            subst h2
            simp only [List.map_cons]
            rw [ih hrec]

theorem compareLoop_has_regression {b c : MetricMap} {t : ℚ} :
    ∀ {ns : List String} {hr : Bool} {rs : List BenchResult},
      compareLoop b c t ns = .ok (hr, rs) →
        (hr = true ↔ ∃ r ∈ rs, r.status = Status.REGRESSION) := by
  intro ns
  induction ns with
  | nil =>
      intro hr rs h
      rw [compareLoop_nil] at h
      simp only [Except.ok.injEq, Prod.mk.injEq] at h
      obtain ⟨h1, h2⟩ := h
      subst h1
      subst h2
      simp
  | cons n rest ih =>
      intro hr rs h
      rw [compareLoop_cons] at h
      by_cases h0 : (dictFind b n).getD 0 = 0
      · rw [if_pos h0] at h; simp at h
      · rw [if_neg h0] at h
        cases hrec : compareLoop b c t rest with
        | error e => rw [hrec, exceptMap_error] at h; simp at h
        | ok p =>
            obtain ⟨p1, p2⟩ := p
            rw [hrec, exceptMap_ok] at h
            simp only [Except.ok.injEq, Prod.mk.injEq] at h
            obtain ⟨h1, h2⟩ := h
            subst h1
            subst h2
            by_cases hcl : classify (((dictFind c n).getD 0 - (dictFind b n).getD 0) /
                (dictFind b n).getD 0) t = Status.REGRESSION
            · rw [if_pos hcl]
              simp only [true_iff]
              exact ⟨_, List.mem_cons_self _ _, hcl⟩
            · rw [if_neg hcl]
              rw [ih hrec]
              constructor
              · rintro ⟨r, hm, hst⟩
                exact ⟨r, List.mem_cons_of_mem _ hm, hst⟩
              · rintro ⟨r, hm, hst⟩
                rcases List.mem_cons.mp hm with rfl | hm'
                · exact absurd hst hcl
                · exact ⟨r, hm', hst⟩

theorem compareLoop_congr {b b' c c' : MetricMap} {t : ℚ}
    (hb : ∀ k, dictFind b k = dictFind b' k) (hc : ∀ k, dictFind c k = dictFind c' k) :
    ∀ ns, compareLoop b c t ns = compareLoop b' c' t ns := by
  intro ns
  induction ns with
  | nil => rfl
  | cons n rest ih => rw [compareLoop_cons, compareLoop_cons, hb n, hc n, ih]

theorem compareLoop_self {m : MetricMap} {t : ℚ} (ht : 0 < t)
    (hv : ∀ p ∈ m, p.2 ≠ 0) :
    ∀ {ns : List String}, (∀ n ∈ ns, n ∈ dictKeys m) →
      ∃ rs, compareLoop m m t ns = .ok (false, rs) ∧
        ∀ r ∈ rs, r.relative_change = 0 ∧ r.status = Status.NEUTRAL := by
  intro ns
  induction ns with
  | nil => exact fun _ => ⟨[], compareLoop_nil m m t, by simp⟩
  | cons n rest ih =>
      intro hmem
      obtain ⟨v, hfv⟩ := exists_dictFind_of_mem_keys (hmem n (List.mem_cons_self _ _))
      have hv0 : v ≠ 0 := hv (n, v) (dictFind_mem hfv)
      obtain ⟨rs, hrec, hall⟩ := ih (fun x hx => hmem x (List.mem_cons_of_mem _ hx))
      have hrc : (v - v) / v = 0 := by rw [sub_self, zero_div]
      have hcl : classify ((v - v) / v) t = Status.NEUTRAL := by
        rw [hrc]
        unfold classify
        rw [if_neg (not_lt.mpr ht.le), if_neg (fun hh => absurd (neg_pos.mp hh) (not_lt.mpr ht.le))]
      refine ⟨BenchResult.mk n v v (v - v) ((v - v) / v) (classify ((v - v) / v) t) :: rs,
        ?_, ?_⟩
      · rw [compareLoop_cons, hfv, hrec, exceptMap_ok]
        simp only [Option.getD_some]
        rw [if_neg hv0, hcl]
        simp
      · intro r hrm
        rcases List.mem_cons.mp hrm with rfl | hm'
        · exact ⟨hrc, hcl⟩
        · exact hall r hm'

/-! ### Permutation invariance of dict lookup (duplicate-free keys) -/

theorem find?_perm_keys {α : Type} (k : String) :
    ∀ {l l' : List (String × α)}, List.Perm l l' →
      l.Pairwise (fun p q => p.1 ≠ q.1) →
      l.find? (fun p => p.1 == k) = l'.find? (fun p => p.1 == k) := by
  intro l l' h
  induction h with
  | nil => intro _; rfl
  | cons x h ih =>
      intro hnd
      rw [List.find?_cons, List.find?_cons]
      cases hx : (x.1 == k) with
      | true => rfl
      | false => exact ih (List.pairwise_cons.mp hnd).2
  | swap x y l =>
      intro hnd
      have hxy : y.1 ≠ x.1 := (List.pairwise_cons.mp hnd).1 x (List.mem_cons_self _ _)
      rw [List.find?_cons, List.find?_cons, List.find?_cons, List.find?_cons]
      cases hy : (y.1 == k) with
      | true =>
          cases hx : (x.1 == k) with
          | true =>
              exact absurd (by rw [eq_of_beq hy, eq_of_beq hx]) hxy
          | false => rfl
      | false =>
          cases hx : (x.1 == k) with
          | true => rfl
          | false => rfl
  | trans h1 h2 ih1 ih2 =>
      intro hnd
      rw [ih1 hnd, ih2 ((h1.pairwise_iff (fun hne => hne.symm)).mp hnd)]

theorem dictFind_perm {α : Type} {l l' : List (String × α)} (h : List.Perm l l')
    (hnd : l.Pairwise (fun p q => p.1 ≠ q.1)) (k : String) :
    dictFind l k = dictFind l' k := by
  unfold dictFind
  rw [find?_perm_keys k h hnd]

theorem dictKeys_perm {α : Type} {m m' : List (String × α)} (h : List.Perm m m') :
    List.Perm (dictKeys m) (dictKeys m') :=
  (h.map Prod.fst).dedup

theorem commonKeys_perm {b b' c c' : MetricMap}
    (hb : List.Perm b b') (hc : List.Perm c c') :
    List.Perm (commonKeys b c) (commonKeys b' c') := by
  unfold commonKeys
  have hfc : ∀ k, (dictKeys c).contains k = (dictKeys c').contains k := by
    intro k
    apply Bool.eq_iff_iff.mpr
    rw [List.elem_iff, List.elem_iff]
    exact (dictKeys_perm hc).mem_iff
  rw [show ((dictKeys b').filter (fun k => (dictKeys c').contains k))
      = ((dictKeys b').filter (fun k => (dictKeys c).contains k)) from
    List.filter_congr (fun k _ => (hfc k).symm)]
  exact (dictKeys_perm hb).filter _

theorem sortedCommon_congr {b b' c c' : MetricMap}
    (hb : List.Perm b b') (hc : List.Perm c c') :
    sortedCommon b c = sortedCommon b' c' := by
  apply List.eq_of_perm_of_sorted _ (List.sorted_insertionSort strLe _)
    (List.sorted_insertionSort strLe _)
  exact (List.perm_insertionSort strLe _).trans
    ((commonKeys_perm hb hc).trans (List.perm_insertionSort strLe _).symm)

/-! ### Dict insertion lemmas -/

theorem dictFind_mapReplace {α : Type} (m : List (String × α)) (k : String) (v : α)
    (k' : String) :
    dictFind (m.map fun p => if p.1 == k then (k, v) else p) k'
      = if k = k' then (if (m.map Prod.fst).contains k then some v else none)
        else dictFind m k' := by
  induction m with
  | nil => by_cases h : k = k' <;> simp [dictFind_nil, h]
  | cons p m ih =>
      obtain ⟨a, w⟩ := p
      simp only [List.map_cons]
      by_cases ha : a = k
      · subst ha
        rw [show (if ((a, w) : String × α).1 == a then (a, v) else (a, w)) = (a, v) by simp]
        rw [dictFind_cons, dictFind_cons]
        by_cases hk' : a = k'
        · simp [hk']
        · rw [if_neg hk', if_neg hk', ih, if_neg hk', if_neg hk']
      · rw [show (if ((a, w) : String × α).1 == k then (k, v) else (a, w)) = (a, w) by
          simp [ha]]
        rw [dictFind_cons, dictFind_cons, ih]
        by_cases hk' : a = k'
        · subst hk'
          rw [if_pos rfl, if_pos rfl, if_neg (Ne.symm ha)]
        · rw [if_neg hk', if_neg hk']
          by_cases hk : k = k'
          · have hne : (k == a) = false := beq_eq_false_iff_ne.mpr (fun h => ha h.symm)
            rw [if_pos hk, if_pos hk]
            simp only [List.contains_cons, hne, Bool.false_or]
          · rw [if_neg hk, if_neg hk]

theorem dictFind_append {α : Type} (m1 m2 : List (String × α)) (k : String) :
    dictFind (m1 ++ m2) k = (dictFind m1 k).or (dictFind m2 k) := by
  unfold dictFind
  rw [List.find?_append]
  cases m1.find? (fun p => p.1 == k) with
  | none => simp
  | some p => simp

theorem dictFind_dictInsert {α : Type} (m : List (String × α)) (k : String) (v : α)
    (k' : String) :
    dictFind (dictInsert m k v) k' = if k = k' then some v else dictFind m k' := by
  unfold dictInsert
  by_cases hc : (m.map Prod.fst).contains k
  · rw [if_pos hc, dictFind_mapReplace]
    by_cases hk : k = k'
    · rw [if_pos hk, if_pos hc, if_pos hk]
    · rw [if_neg hk, if_neg hk]
  · rw [if_neg hc, dictFind_append, dictFind_cons, dictFind_nil]
    by_cases hk : k = k'
    · subst hk
      have hn : dictFind m k = none :=
        (dictFind_eq_none_iff m k).mpr (fun hmem => hc (List.elem_iff.mpr hmem))
      simp [hn]
    · rw [if_neg hk]
      cases hd : dictFind m k' with
      | none => simp [hk]
      | some w => simp [hk]

/-! ### Extraction fold lemmas -/

theorem extractStep_of_none {acc : MetricMap} {r : Record}
    (h : findTimeValue r = none) : extractStep acc r = acc := by
  unfold extractStep
  rw [h]

theorem extractStep_of_some {acc : MetricMap} {r : Record} {v : ℚ}
    (h : findTimeValue r = some v) : extractStep acc r = dictInsert acc r.getName v := by
  unfold extractStep
  rw [h]

theorem extract_foldl_find (k : String) :
    ∀ (bs : List Record) (acc : MetricMap),
      dictFind (bs.foldl extractStep acc) k =
        (match (bs.filter (fun r => r.getName == k && (findTimeValue r).isSome)).getLast? with
         | some r => findTimeValue r
         | none => dictFind acc k) := by
  intro bs
  induction bs with
  | nil => intro acc; rfl
  | cons r bs ih =>
      intro acc
      rw [List.foldl_cons, ih (extractStep acc r), List.filter_cons]
      cases hft : findTimeValue r with
      | none =>
          rw [show (r.getName == k && Option.isSome (none : Option ℚ)) = false by simp]
          rw [if_neg (by simp)]
          rw [extractStep_of_none hft]
      | some v =>
          by_cases hname : r.getName = k
          · rw [show (r.getName == k && Option.isSome (some v)) = true by simp [hname]]
            rw [if_pos rfl]
            cases hfl : bs.filter (fun r => r.getName == k && (findTimeValue r).isSome) with
            | nil =>
                simp only [List.getLast?_singleton]
                rw [extractStep_of_some hft, dictFind_dictInsert, if_pos hname, hft]
                rfl
            | cons q qs =>
                rw [List.getLast?_cons_cons]
                cases hql : (q :: qs).getLast? with
                | none => simp at hql
                | some x => rfl
          · rw [show (r.getName == k && Option.isSome (some v)) = false by simp [hname]]
            rw [if_neg (by simp)]
            rw [extractStep_of_some hft, dictFind_dictInsert, if_neg hname]

/-! ### Claim theorems -/

/-- Claim C3: the exit signal of the final-verdict block is `1` iff
`has_regression` is true and strict mode is enabled, and `0` in every
other combination (including regressions present without strict mode). -/
theorem spec_C3 :
    ∀ has_regression strict : Bool,
      (main_exit has_regression strict = 1 ↔ has_regression = true ∧ strict = true) ∧
      (main_exit has_regression strict = 0 ↔ ¬(has_regression = true ∧ strict = true)) := by
  decide

/-- Claim C5: `extract_benchmark_data` selects the metric by scanning the
candidate fields in the fixed order `real_time`, `cpu_time`, `wall_time`,
`time`, `duration`, taking the value of the first key present regardless
of the values; in particular a record with both `cpu_time: 5` and
`duration: 10` yields `5`. -/
theorem spec_C5 :
    (∀ (r : Record) (v : ℚ),
      (dictFind r.fields "real_time" = some v → findTimeValue r = some v) ∧
      (dictFind r.fields "real_time" = none →
        dictFind r.fields "cpu_time" = some v → findTimeValue r = some v) ∧
      (dictFind r.fields "real_time" = none → dictFind r.fields "cpu_time" = none →
        dictFind r.fields "wall_time" = some v → findTimeValue r = some v) ∧
      (dictFind r.fields "real_time" = none → dictFind r.fields "cpu_time" = none →
        dictFind r.fields "wall_time" = none →
        dictFind r.fields "time" = some v → findTimeValue r = some v) ∧
      (dictFind r.fields "real_time" = none → dictFind r.fields "cpu_time" = none →
        dictFind r.fields "wall_time" = none → dictFind r.fields "time" = none →
        dictFind r.fields "duration" = some v → findTimeValue r = some v)) ∧
    findTimeValue ⟨some "B", [("cpu_time", 5), ("duration", 10)]⟩ = some 5 := by
  constructor
  · intro r v
    refine ⟨?_, ?_, ?_, ?_, ?_⟩
    · intro h1
      simp [findTimeValue, timeKeys, List.findSome?_cons, h1]
    · intro h1 h2
      simp [findTimeValue, timeKeys, List.findSome?_cons, h1, h2]
    · intro h1 h2 h3
      simp [findTimeValue, timeKeys, List.findSome?_cons, h1, h2, h3]
    · intro h1 h2 h3 h4
      simp [findTimeValue, timeKeys, List.findSome?_cons, h1, h2, h3, h4]
    · intro h1 h2 h3 h4 h5
      simp [findTimeValue, timeKeys, List.findSome?_cons, h1, h2, h3, h4, h5]
  · rfl

/-- Witness for C5 at a concrete record whose only timing field is
`wall_time`. -/
theorem spec_C5_witness :
    dictFind (Record.mk (some "W") [("wall_time", (7 : ℚ))]).fields "real_time" = none ∧
    dictFind (Record.mk (some "W") [("wall_time", (7 : ℚ))]).fields "cpu_time" = none ∧
    dictFind (Record.mk (some "W") [("wall_time", (7 : ℚ))]).fields "wall_time" = some 7 ∧
    findTimeValue (Record.mk (some "W") [("wall_time", (7 : ℚ))]) = some 7 :=
  ⟨rfl, rfl, rfl, ((spec_C5.1 (Record.mk (some "W") [("wall_time", (7 : ℚ))]) 7).2.2).1
    rfl rfl rfl⟩

/-- Claim C6: a record with none of the recognized timing fields is
omitted from the resulting map (never defaulted to 0), a warning naming
it is emitted, and the remaining records are processed as if it were
absent. -/
theorem spec_C6 :
    ∀ (bs1 bs2 : List Record) (r : Record),
      findTimeValue r = none →
      extract_benchmark_data (bs1 ++ r :: bs2) = extract_benchmark_data (bs1 ++ bs2) ∧
      r.getName ∈ extract_warnings (bs1 ++ r :: bs2) := by
  intro bs1 bs2 r h
  constructor
  · unfold extract_benchmark_data
    rw [List.foldl_append, List.foldl_append, List.foldl_cons, extractStep_of_none h]
  · unfold extract_warnings
    refine List.mem_map.mpr ⟨r, ?_, rfl⟩
    apply List.mem_filter.mpr
    exact ⟨List.mem_append.mpr (Or.inr (List.mem_cons_self _ _)), by simp [h]⟩

/-- Witness for C6 at a concrete record with no timing field. -/
theorem spec_C6_witness :
    findTimeValue (Record.mk (some "W") []) = none ∧
    extract_benchmark_data ([] ++ Record.mk (some "W") [] :: []) =
      extract_benchmark_data ([] ++ []) ∧
    (Record.mk (some "W") []).getName ∈
      extract_warnings ([] ++ Record.mk (some "W") [] :: []) :=
  ⟨rfl, (spec_C6 [] [] (Record.mk (some "W") []) rfl).1,
    (spec_C6 [] [] (Record.mk (some "W") []) rfl).2⟩

/-- Claim C7: `load_benchmark_results` normalizes the three accepted
document shapes to one sequence of per-benchmark objects: an object with
a `benchmarks` key yields that key's value, a sequence (of per-benchmark
objects) yields itself, and any other single object yields a one-element
sequence containing it. -/
theorem spec_C7 :
    (∀ (fs : List (String × Json)) (v : Json),
      dictFind fs "benchmarks" = some v → load_normalize (Json.obj fs) = .ok v) ∧
    (∀ es : List Json, (∀ e ∈ es, ∃ gs, e = Json.obj gs) →
      load_normalize (Json.arr es) = .ok (Json.arr es)) ∧
    (∀ fs : List (String × Json),
      dictFind fs "benchmarks" = none →
      load_normalize (Json.obj fs) = .ok (Json.arr [Json.obj fs])) := by
  refine ⟨?_, ?_, ?_⟩
  · intro fs v h
    have hc : (fs.map Prod.fst).contains "benchmarks" = true := by
      apply List.elem_iff.mpr
      exact List.mem_map.mpr ⟨_, dictFind_mem h, rfl⟩
    simp only [load_normalize, pyContains, hc, h]
  · intro es hobj
    have hcontains :
        (es.any fun e => match e with | .str s => s == "benchmarks" | _ => false) = false := by
      apply List.any_eq_false.mpr
      intro e he
      obtain ⟨gs, rfl⟩ := hobj e he
      simp
    simp only [load_normalize, pyContains, hcontains]
  · intro fs h
    have hc : (fs.map Prod.fst).contains "benchmarks" = false := by
      have hnm := (dictFind_eq_none_iff fs "benchmarks").mp h
      cases hcb : (fs.map Prod.fst).contains "benchmarks" with
      | true => exact absurd (List.elem_iff.mp hcb) hnm
      | false => rfl
    simp only [load_normalize, pyContains, hc]

/-- Witness for C7 at one concrete document of each accepted shape. -/
theorem spec_C7_witness :
    dictFind [("benchmarks", Json.arr [])] "benchmarks" = some (Json.arr []) ∧
    load_normalize (Json.obj [("benchmarks", Json.arr [])]) = .ok (Json.arr []) ∧
    load_normalize (Json.arr [Json.obj [("name", Json.str "X")]]) =
      .ok (Json.arr [Json.obj [("name", Json.str "X")]]) ∧
    load_normalize (Json.obj [("name", Json.str "X")]) =
      .ok (Json.arr [Json.obj [("name", Json.str "X")]]) :=
  ⟨rfl, spec_C7.1 [("benchmarks", Json.arr [])] (Json.arr []) rfl,
    spec_C7.2.1 [Json.obj [("name", Json.str "X")]]
      (fun e he => ⟨[("name", Json.str "X")], by simpa using he⟩),
    spec_C7.2.2 [("name", Json.str "X")] rfl⟩

/-- Claim C1: for a positive threshold `t` and a matched pair with
baseline `b ≠ 0` and current `c`, the pair is classified REGRESSION iff
`(c−b)/b > t`, IMPROVEMENT iff `(c−b)/b < −t`, and NEUTRAL otherwise
(boundary values `±t` inclusive, the inequalities being strict); and the
returned `has_regression` flag is true iff some result in the returned
sequence is classified REGRESSION. -/
theorem spec_C1 :
    (∀ t b c : ℚ, 0 < t → b ≠ 0 →
      (classify ((c - b) / b) t = Status.REGRESSION ↔ (c - b) / b > t) ∧
      (classify ((c - b) / b) t = Status.IMPROVEMENT ↔ (c - b) / b < -t) ∧
      (classify ((c - b) / b) t = Status.NEUTRAL ↔
        ¬((c - b) / b > t) ∧ ¬((c - b) / b < -t))) ∧
    (∀ (baseline current : MetricMap) (t : ℚ) (hr : Bool) (rs : List BenchResult),
      compare_benchmarks baseline current t = .ok (hr, rs) →
      (hr = true ↔ ∃ r ∈ rs, r.status = Status.REGRESSION)) := by
  constructor
  · intro t b c ht hb
    unfold classify
    by_cases h1 : (c - b) / b > t
    · rw [if_pos h1]
      have h3 : -t ≤ (c - b) / b := by linarith
      simp [h1, h3]
    · rw [if_neg h1]
      by_cases h2 : (c - b) / b < -t
      · rw [if_pos h2]
        simp [h1, h2]
      · rw [if_neg h2]
        simp [h1, h2]
  · intro baseline current t hr rs h
    unfold compare_benchmarks at h
    by_cases hc : commonKeys baseline current = []
    · rw [if_pos hc] at h
      simp only [Except.ok.injEq, Prod.mk.injEq] at h
      obtain ⟨h1, h2⟩ := h
      subst h1
      subst h2
      simp
    · rw [if_neg hc] at h
      exact compareLoop_has_regression h

/-- Witness for C1: the boundary pair (20, 21) at threshold 1/20 is
NEUTRAL, and a concrete run with one regressing benchmark returns
`has_regression = true` matched by a REGRESSION row. -/
theorem spec_C1_witness :
    (0 < (1 / 20 : ℚ)) ∧ ((20 : ℚ) ≠ 0) ∧
    (classify (((21 : ℚ) - 20) / 20) (1 / 20) = Status.NEUTRAL ↔
      ¬(((21 : ℚ) - 20) / 20 > 1 / 20) ∧ ¬(((21 : ℚ) - 20) / 20 < -(1 / 20))) ∧
    (true = true ↔
      ∃ r ∈ [BenchResult.mk "A" 1 3 2 2 Status.REGRESSION], r.status = Status.REGRESSION) := by
  have hE : compare_benchmarks [("A", (1 : ℚ))] [("A", 3)] (1 / 2) =
      .ok (true, [BenchResult.mk "A" 1 3 2 2 Status.REGRESSION]) := by
    have h1 : commonKeys [("A", (1 : ℚ))] [("A", (3 : ℚ))] = ["A"] := rfl
    have h2 : sortedCommon [("A", (1 : ℚ))] [("A", (3 : ℚ))] = ["A"] := rfl
    rw [compare_benchmarks, h1, h2]
    simp [compareLoop, classify, dictFind_cons, dictFind_nil]
    norm_num
    all_goals rfl
  exact ⟨by norm_num, by norm_num,
    (spec_C1.1 (1 / 20) 20 21 (by norm_num) (by norm_num)).2.2,
    spec_C1.2 _ _ _ _ _ hE⟩

/-- Claim C2 (refuting evaluation): on the spec's own zero-baseline
scenario — baseline `{"Z": 0}`, current `{"Z": 5}`, default threshold —
the comparison raises an uncaught `ZeroDivisionError` (modelled as
`Except.error ()`) instead of skipping the benchmark or reporting a
special-case status. -/
theorem spec_C2_crash :
    compare_benchmarks [("Z", (0 : ℚ))] [("Z", 5)] (1 / 20) = .error () := by
  have h1 : commonKeys [("Z", (0 : ℚ))] [("Z", (5 : ℚ))] = ["Z"] := rfl
  have h2 : sortedCommon [("Z", (0 : ℚ))] [("Z", (5 : ℚ))] = ["Z"] := rfl
  rw [compare_benchmarks, h1, h2]
  simp [compareLoop, dictFind_cons, dictFind_nil]

/-- Claim C9: comparing a map against itself (all values nonzero,
positive threshold) yields `relative_change = 0` and status NEUTRAL for
every matched name, and `has_regression = false`. -/
theorem spec_C9 :
    ∀ (m : MetricMap) (t : ℚ), 0 < t → (∀ p ∈ m, p.2 ≠ 0) →
      ∃ rs, compare_benchmarks m m t = .ok (false, rs) ∧
        ∀ r ∈ rs, r.relative_change = 0 ∧ r.status = Status.NEUTRAL := by
  intro m t ht hv
  unfold compare_benchmarks
  by_cases hc : commonKeys m m = []
  · rw [if_pos hc]
    exact ⟨[], rfl, by simp⟩
  · rw [if_neg hc]
    apply compareLoop_self ht hv
    intro n hn
    exact ((mem_commonKeys m m n).mp ((mem_sortedCommon m m n).mp hn)).1

/-- Witness for C9 at a concrete two-benchmark map. -/
theorem spec_C9_witness :
    (0 < (1 / 20 : ℚ)) ∧
    (∀ p ∈ ([("A", 2), ("B", 3)] : MetricMap), p.2 ≠ 0) ∧
    (∃ rs, compare_benchmarks [("A", 2), ("B", 3)] [("A", 2), ("B", 3)] (1 / 20) =
        .ok (false, rs) ∧
      ∀ r ∈ rs, r.relative_change = 0 ∧ r.status = Status.NEUTRAL) :=
  ⟨by norm_num, by decide, spec_C9 [("A", 2), ("B", 3)] (1 / 20) (by norm_num) (by decide)⟩

/-- Claim C4: the names in the results of `compare_benchmarks` are
exactly the intersection of the two key sets, and when that intersection
is empty the function returns `has_regression = false` with an empty
result sequence and emits a warning. -/
theorem spec_C4 :
    (∀ (baseline current : MetricMap) (t : ℚ) (hr : Bool) (rs : List BenchResult),
      compare_benchmarks baseline current t = .ok (hr, rs) →
      ∀ n, n ∈ rs.map BenchResult.name ↔
        (n ∈ dictKeys baseline ∧ n ∈ dictKeys current)) ∧
    (∀ (baseline current : MetricMap) (t : ℚ),
      (∀ n, ¬(n ∈ dictKeys baseline ∧ n ∈ dictKeys current)) →
      compare_benchmarks baseline current t = .ok (false, []) ∧
      compare_warns baseline current = true) := by
  constructor
  · intro baseline current t hr rs h n
    unfold compare_benchmarks at h
    by_cases hc : commonKeys baseline current = []
    · rw [if_pos hc] at h
      simp only [Except.ok.injEq, Prod.mk.injEq] at h
      obtain ⟨h1, h2⟩ := h
      subst h2
      constructor
      · intro hn
        simp at hn
      · intro hn
        have := (mem_commonKeys baseline current n).mpr hn
        rw [hc] at this
        simp at this
    · rw [if_neg hc] at h
      rw [compareLoop_names h, mem_sortedCommon, mem_commonKeys]
  · intro baseline current t hnone
    have hc : commonKeys baseline current = [] := by
      apply List.eq_nil_iff_forall_not_mem.mpr
      intro n hn
      exact hnone n ((mem_commonKeys baseline current n).mp hn)
    refine ⟨?_, ?_⟩
    · unfold compare_benchmarks
      rw [if_pos hc]
    · unfold compare_warns
      rw [hc]
      rfl

/-- Witness for C4: the spec's matching example (only "B" is common) and
a disjoint pair (warning, empty results). -/
theorem spec_C4_witness :
    ("B" ∈ (List.map BenchResult.name [BenchResult.mk "B" 2 2 0 0 Status.NEUTRAL] : List String)
      ↔ ("B" ∈ dictKeys ([("A", 1), ("B", 2)] : MetricMap) ∧
         "B" ∈ dictKeys ([("B", 2), ("C", 3)] : MetricMap))) ∧
    compare_benchmarks [("A", (1 : ℚ))] [("B", 2)] (1 / 20) = .ok (false, []) ∧
    compare_warns [("A", (1 : ℚ))] [("B", 2)] = true := by
  have hE : compare_benchmarks [("A", (1 : ℚ)), ("B", 2)] [("B", 2), ("C", 3)] (1 / 20) =
      .ok (false, [BenchResult.mk "B" 2 2 0 0 Status.NEUTRAL]) := by
    have h1 : commonKeys [("A", (1 : ℚ)), ("B", 2)] [("B", (2 : ℚ)), ("C", 3)] = ["B"] := rfl
    have h2 : sortedCommon [("A", (1 : ℚ)), ("B", 2)] [("B", (2 : ℚ)), ("C", 3)] = ["B"] := rfl
    rw [compare_benchmarks, h1, h2]
    simp [compareLoop, classify, dictFind_cons, dictFind_nil]
    norm_num
    all_goals rfl
  have hdisj : ∀ n, ¬(n ∈ dictKeys ([("A", (1 : ℚ))] : MetricMap) ∧
      n ∈ dictKeys ([("B", (2 : ℚ))] : MetricMap)) := by
    intro n hn
    obtain ⟨hA, hB⟩ := hn
    rw [show dictKeys ([("A", (1 : ℚ))] : MetricMap) = ["A"] from rfl] at hA
    rw [show dictKeys ([("B", (2 : ℚ))] : MetricMap) = ["B"] from rfl] at hB
    simp at hA hB
    subst hA
    exact absurd hB (by decide)
  exact ⟨spec_C4.1 _ _ _ _ _ hE "B", (spec_C4.2 _ _ (1 / 20) hdisj).1,
    (spec_C4.2 _ _ (1 / 20) hdisj).2⟩

/-- Claim C8: the result sequence of `compare_benchmarks` is ordered by
benchmark name in ascending lexicographic order, and the output is
invariant under permuting the entries (the iteration order) of either
input map. -/
theorem spec_C8 :
    (∀ (baseline current : MetricMap) (t : ℚ) (hr : Bool) (rs : List BenchResult),
      compare_benchmarks baseline current t = .ok (hr, rs) →
      List.Sorted (· ≤ ·) (rs.map BenchResult.name)) ∧
    (∀ (baseline baseline' current current' : MetricMap) (t : ℚ),
      List.Perm baseline baseline' → List.Perm current current' →
      (baseline.map Prod.fst).Nodup → (current.map Prod.fst).Nodup →
      compare_benchmarks baseline current t = compare_benchmarks baseline' current' t) := by
  constructor
  · intro baseline current t hr rs h
    unfold compare_benchmarks at h
    by_cases hc : commonKeys baseline current = []
    · rw [if_pos hc] at h
      simp only [Except.ok.injEq, Prod.mk.injEq] at h
      obtain ⟨h1, h2⟩ := h
      subst h2
      simp
    · rw [if_neg hc] at h
      rw [compareLoop_names h]
      exact (sortedCommon_sorted baseline current).imp (fun hxy => (strLe_iff _ _).mp hxy)
  · intro baseline baseline' current current' t hb hc hndb hndc
    have hfb : ∀ k, dictFind baseline k = dictFind baseline' k := fun k =>
      dictFind_perm hb (List.pairwise_map.mp hndb) k
    have hfc : ∀ k, dictFind current k = dictFind current' k := fun k =>
      dictFind_perm hc (List.pairwise_map.mp hndc) k
    have hck : commonKeys baseline current = [] ↔ commonKeys baseline' current' = [] := by
      constructor
      · intro hh
        have hp := commonKeys_perm hb hc
        rw [hh] at hp
        exact hp.symm.eq_nil
      · intro hh
        have hp := (commonKeys_perm hb hc).symm
        rw [hh] at hp
        exact hp.symm.eq_nil
    unfold compare_benchmarks
    by_cases hc0 : commonKeys baseline current = []
    · rw [if_pos hc0, if_pos (hck.mp hc0)]
    · rw [if_neg hc0, if_neg (fun hh => hc0 (hck.mpr hh))]
      rw [sortedCommon_congr hb hc]
      exact compareLoop_congr hfb hfc _

/-- Witness for C8: a concrete two-name run produces name-sorted results,
and permuting a concrete baseline map leaves the output unchanged. -/
theorem spec_C8_witness :
    List.Sorted (· ≤ ·)
      (List.map BenchResult.name
        [BenchResult.mk "A" 1 1 0 0 Status.NEUTRAL,
         BenchResult.mk "B" 2 2 0 0 Status.NEUTRAL]) ∧
    compare_benchmarks [("B", (2 : ℚ)), ("A", 1)] [("A", 1)] (1 / 20) =
      compare_benchmarks [("A", (1 : ℚ)), ("B", 2)] [("A", 1)] (1 / 20) := by
  have hE : compare_benchmarks [("B", (2 : ℚ)), ("A", 1)] [("A", 1), ("B", 2)] (1 / 20) =
      .ok (false, [BenchResult.mk "A" 1 1 0 0 Status.NEUTRAL,
        BenchResult.mk "B" 2 2 0 0 Status.NEUTRAL]) := by
    have h1 : commonKeys [("B", (2 : ℚ)), ("A", 1)] [("A", (1 : ℚ)), ("B", 2)] = ["B", "A"] := rfl
    have h2 : sortedCommon [("B", (2 : ℚ)), ("A", 1)] [("A", (1 : ℚ)), ("B", 2)] = ["A", "B"] := rfl
    rw [compare_benchmarks, h1, h2]
    simp [compareLoop, classify, dictFind_cons, dictFind_nil]
    norm_num
    all_goals rfl
  exact ⟨spec_C8.1 _ _ _ _ _ hE,
    spec_C8.2 [("B", (2 : ℚ)), ("A", 1)] [("A", (1 : ℚ)), ("B", 2)] [("A", 1)] [("A", 1)]
      (1 / 20) (by decide) (List.Perm.refl _) (by decide) (by decide)⟩

/-- Claim C10: duplicate names (including several nameless records, which
all default to the single name "unknown") collapse last-write-wins: the
resulting map's value at a name is the metric of the last record with
that name carrying a timing field, records lacking a name get the name
"unknown", and warnings are emitted only for records with no timing
field (never for duplicates). -/
theorem spec_C10 :
    (∀ (bs : List Record) (k : String),
      dictFind (extract_benchmark_data bs) k =
        (match (bs.filter (fun r => r.getName == k && (findTimeValue r).isSome)).getLast? with
         | some r => findTimeValue r
         | none => none)) ∧
    (∀ r : Record, r.nameField = none → r.getName = "unknown") ∧
    (∀ (bs : List Record) (s : String),
      s ∈ extract_warnings bs ↔ ∃ r ∈ bs, findTimeValue r = none ∧ r.getName = s) := by
  refine ⟨?_, ?_, ?_⟩
  · intro bs k
    rw [show extract_benchmark_data bs = bs.foldl extractStep [] from rfl,
      extract_foldl_find k bs []]
    cases (bs.filter (fun r => r.getName == k && (findTimeValue r).isSome)).getLast? with
    | some r => rfl
    | none => exact dictFind_nil k
  · intro r h
    unfold Record.getName
    rw [h]
    rfl
  · intro bs s
    unfold extract_warnings
    constructor
    · intro hs
      obtain ⟨r, hrf, rfl⟩ := List.mem_map.mp hs
      obtain ⟨hrb, hpred⟩ := List.mem_filter.mp hrf
      refine ⟨r, hrb, ?_, rfl⟩
      simpa [Option.isNone_iff_eq_none] using hpred
    · rintro ⟨r, hrb, hft, rfl⟩
      exact List.mem_map.mpr ⟨r, List.mem_filter.mpr ⟨hrb, by simp [hft]⟩, rfl⟩

/-- Witness for C10: two records named "A" collapse to the metric of the
second, two nameless records both default to "unknown", and a
duplicate-only input emits no warning. -/
theorem spec_C10_witness :
    dictFind (extract_benchmark_data
        [Record.mk (some "A") [("time", 1)], Record.mk (some "A") [("time", 2)]]) "A" =
      (match (List.filter
          (fun r => r.getName == "A" && (findTimeValue r).isSome)
          [Record.mk (some "A") [("time", 1)], Record.mk (some "A") [("time", 2)]]).getLast? with
       | some r => findTimeValue r
       | none => none) ∧
    Record.getName (Record.mk none [("time", 1)]) = "unknown" ∧
    ("A" ∈ extract_warnings
        [Record.mk (some "A") [("time", 1)], Record.mk (some "A") [("time", 2)]] ↔
      ∃ r ∈ [Record.mk (some "A") [("time", (1 : ℚ))], Record.mk (some "A") [("time", 2)]],
        findTimeValue r = none ∧ r.getName = "A") :=
  ⟨spec_C10.1 [Record.mk (some "A") [("time", 1)], Record.mk (some "A") [("time", 2)]] "A",
    spec_C10.2.1 (Record.mk none [("time", 1)]) rfl,
    spec_C10.2.2 [Record.mk (some "A") [("time", 1)], Record.mk (some "A") [("time", 2)]] "A"⟩
